import Mathlib

/-!
# Verification of the GIVA URL-shortener storage layer

Shallow embedding of `DatabaseStorage` (server storage module) and the parts
of the MongoDB store contract it relies on.  The document store is modelled
as a list of `UrlRec` records; MongoDB query primitives (`findOne`,
`findOneAndUpdate` with `$inc`, `find().sort().limit()`, `save`) are
translated to pure functions on that list.  Randomness (the `nanoid`
generator) is modelled by an oracle `rnd : Nat → Nat` supplying raw random
values, and the wall clock / store-assigned identifier are explicit
parameters, so every operation is a pure function of the store state.
-/

namespace Giva

/-- A persisted Url document, after the gateway's identifier projection:
`{id, shortCode, longUrl, customAlias (nullable), createdAt, clicks}`. -/
structure UrlRec where
  id : Nat
  shortCode : String
  longUrl : String
  customAlias : Option String
  createdAt : Int
  clicks : Nat
deriving Repr, DecidableEq

/-- The document store's Url collection, in natural (insertion) order. -/
abbrev Store := List UrlRec

/-- `UrlModel.findOne({ shortCode })`: the first document whose `shortCode`
field equals the query value (exact match). -/
def findOneByShortCode (store : Store) (code : String) : Option UrlRec :=
  store.find? (fun r => r.shortCode == code)

/-- `getUrlByShortCode(shortCode)`: a `findOne` exact-match lookup returning
`undefined` (here `none`) when no document matches. -/
def getUrlByShortCode (store : Store) (code : String) : Option UrlRec :=
  findOneByShortCode store code

/-- `getUrlByShortCode` as a state transformer: the method issues a single
`findOne` query, which performs no write, so the post-state is the pre-state. -/
def getUrlByShortCodeRun (store : Store) (code : String) : Option UrlRec × Store :=
  (getUrlByShortCode store code, store)

/-- `isShortCodeAvailable(shortCode)`: `!existingUrl` after a `findOne`. -/
def isShortCodeAvailable (store : Store) (code : String) : Bool :=
  (findOneByShortCode store code).isNone

/-- `UrlModel.findOneAndUpdate({ shortCode }, { $inc: { clicks: 1 } })`:
increments the `clicks` field of the first matching document; a no-op when
no document matches.  This is `incrementUrlClicks(shortCode)`. -/
def incrementUrlClicks (store : Store) (code : String) : Store :=
  match store with
  | [] => []
  | r :: rs =>
      if r.shortCode == code then { r with clicks := r.clicks + 1 } :: rs
      else r :: incrementUrlClicks rs code

/-- Insert `u` into a list already sorted by `createdAt` descending. -/
def insertDesc (u : UrlRec) : List UrlRec → List UrlRec
  | [] => [u]
  | v :: vs =>
      if v.createdAt ≤ u.createdAt then u :: v :: vs else v :: insertDesc u vs

/-- `.sort({ createdAt: -1 })`: the collection ordered by `createdAt`
descending (ties in unspecified order; this model realises one such order). -/
def sortDesc : List UrlRec → List UrlRec
  | [] => []
  | u :: us => insertDesc u (sortDesc us)

/-- `getRecentUrls(limit = 10)`: `find({}).sort({ createdAt: -1 }).limit(limit)`,
the store contract for `.limit(n)` being "return at most the first `n` results". -/
def getRecentUrls (store : Store) (limit : Nat := 10) : List UrlRec :=
  (sortDesc store).take limit

/-- nanoid's 64-character URL-safe alphabet (the letters A–Z and a–z, the
digits 0–9, `_` and `-`). -/
def urlAlphabet : List Char :=
  "useandom-26T198340PX75pxJACKVERYMINDBUSHWOLF_GQZbfghjklqvwyzrict".toList

/-- Modelled from the spec: `nanoid(length)` (the external generator used by
`generateShortCode`) "generate[s] a random short code of fixed length ...
drawn from a URL-safe alphabet, using a cryptographically-strong random
generator".  The stream of random values is the oracle `rnd`; each output
character is drawn from the 64-character URL-safe alphabet. -/
def nanoid (len : Nat) (rnd : Nat → Nat) : String :=
  String.mk ((List.range len).map (fun i => urlAlphabet.getD (rnd i % 64) 'u'))

/-- `generateShortCode(length = 6)`: `nanoid(length)`. -/
def generateShortCode (rnd : Nat → Nat) (length : Nat := 6) : String :=
  nanoid length rnd

/-- Failure modes of `createShortUrl`: the explicit `Error("Custom alias is
already in use...")` throw, and a store-level rejection of a duplicate key. -/
inductive CreateError where
  | conflict
  | duplicateKey
deriving Repr, DecidableEq

/-- Modelled from the spec: `new UrlModel({...}).save()` against the URL
collection whose persisted layout is `{shortCode unique, ...}` — the store
appends the document, rejecting a `shortCode` that is already present. -/
def saveUrl (store : Store) (r : UrlRec) : Except CreateError Store :=
  if isShortCodeAvailable store r.shortCode then .ok (store ++ [r])
  else .error .duplicateKey

/-- JavaScript truthiness of the optional `customAlias` argument:
`undefined` and the empty string are falsy. -/
def jsTruthy : Option String → Bool
  | none => false
  | some s => s != ""

/-- The value of `customAlias || fallback` for an optional string. -/
def orElse (customAlias : Option String) (fallback : String) : String :=
  if jsTruthy customAlias then customAlias.getD "" else fallback

/-- `createShortUrl(longUrl, customAlias?)`.  Mirrors the source: compute
`shortCode = customAlias || this.generateShortCode()`; if `customAlias` is
truthy, check `isShortCodeAvailable` and throw the conflict error when taken;
otherwise persist `{shortCode, longUrl, customAlias: customAlias || null,
createdAt: now, clicks: 0}` and return the saved record with its projected
identifier.  The pair returned is (outcome, post-state of the store). -/
def createShortUrl (store : Store) (longUrl : String) (customAlias : Option String)
    (rnd : Nat → Nat) (now : Int) (newId : Nat) :
    Except CreateError UrlRec × Store :=
  let shortCode := orElse customAlias (generateShortCode rnd)
  if jsTruthy customAlias && !(isShortCodeAvailable store (customAlias.getD "")) then
    (.error .conflict, store)
  else
    let newUrl : UrlRec :=
      { id := newId
        shortCode := shortCode
        longUrl := longUrl
        customAlias := if jsTruthy customAlias then customAlias else none
        createdAt := now
        clicks := 0 }
    match saveUrl store newUrl with
    | .ok s => (.ok newUrl, s)
    | .error e => (.error e, store)

/-- The `clicks` field of the record an exact-match lookup returns. -/
def clicksOf (store : Store) (code : String) : Option Nat :=
  (getUrlByShortCode store code).map (·.clicks)

/-- The uniqueness invariant: no two documents of the collection share a
`shortCode`. -/
def UniqueCodes (store : Store) : Prop :=
  (store.map (·.shortCode)).Pairwise (· ≠ ·)

instance : DecidablePred UniqueCodes := fun store => by
  unfold UniqueCodes
  infer_instance

/-! ## Helper lemmas -/

theorem isShortCodeAvailable_iff (store : Store) (code : String) :
    isShortCodeAvailable store code = true ↔ ∀ r ∈ store, r.shortCode ≠ code := by
  simp [isShortCodeAvailable, findOneByShortCode, Option.isNone_iff_eq_none,
    List.find?_eq_none]

theorem isShortCodeAvailable_eq_false (store : Store) (code : String) :
    isShortCodeAvailable store code = false ↔ ∃ r ∈ store, r.shortCode = code := by
  rw [← Bool.not_eq_true, not_iff_comm, isShortCodeAvailable_iff]
  push_neg
  simp

theorem findOne_eq_none_iff (store : Store) (code : String) :
    findOneByShortCode store code = none ↔ ∀ r ∈ store, r.shortCode ≠ code := by
  simp [findOneByShortCode, List.find?_eq_none]

theorem findOne_some_spec (store : Store) (code : String) (r : UrlRec)
    (h : findOneByShortCode store code = some r) :
    r ∈ store ∧ r.shortCode = code := by
  refine ⟨List.mem_of_find?_eq_some h, ?_⟩
  have := List.find?_some h
  simpa using this

theorem incrementUrlClicks_of_no_match (store : Store) (code : String)
    (h : ∀ r ∈ store, r.shortCode ≠ code) :
    incrementUrlClicks store code = store := by
  induction store with
  | nil => rfl
  | cons r rs ih =>
    have hr : r.shortCode ≠ code := h r (List.mem_cons_self r rs)
    have hb : (r.shortCode == code) = false := beq_eq_false_iff_ne.mpr hr
    simp only [incrementUrlClicks, hb, Bool.false_eq_true, if_false]
    rw [ih (fun v hv => h v (List.mem_cons_of_mem r hv))]

theorem clicksOf_increment (store : Store) (code : String) :
    clicksOf (incrementUrlClicks store code) code
      = (clicksOf store code).map (· + 1) := by
  induction store with
  | nil => rfl
  | cons r rs ih =>
    by_cases hr : r.shortCode = code
    · simp [incrementUrlClicks, clicksOf, getUrlByShortCode, findOneByShortCode,
        List.find?_cons, hr]
    · have hb : (r.shortCode == code) = false := beq_eq_false_iff_ne.mpr hr
      simp only [incrementUrlClicks, hb, if_neg Bool.false_ne_true]
      simpa [clicksOf, getUrlByShortCode, findOneByShortCode, List.find?_cons, hb]
        using ih

theorem map_shortCode_increment (store : Store) (code : String) :
    (incrementUrlClicks store code).map (fun r => r.shortCode)
      = store.map (fun r => r.shortCode) := by
  induction store with
  | nil => rfl
  | cons r rs ih =>
    by_cases hb : (r.shortCode == code) = true
    · simp [incrementUrlClicks, hb]
    · rw [Bool.not_eq_true] at hb
      simp only [incrementUrlClicks, hb, Bool.false_eq_true, if_false, List.map_cons, ih]

theorem mem_insertDesc (u b : UrlRec) (l : List UrlRec) :
    b ∈ insertDesc u l ↔ b = u ∨ b ∈ l := by
  induction l with
  | nil => simp [insertDesc]
  | cons v vs ih =>
    by_cases hc : v.createdAt ≤ u.createdAt
    · simp [insertDesc, hc]
    · simp only [insertDesc, if_neg hc, List.mem_cons, ih]
      tauto

theorem insertDesc_sorted (u : UrlRec) (l : List UrlRec)
    (h : l.Pairwise (fun a b => b.createdAt ≤ a.createdAt)) :
    (insertDesc u l).Pairwise (fun a b => b.createdAt ≤ a.createdAt) := by
  induction l with
  | nil => simp [insertDesc]
  | cons v vs ih =>
    rw [List.pairwise_cons] at h
    by_cases hc : v.createdAt ≤ u.createdAt
    · rw [insertDesc, if_pos hc, List.pairwise_cons]
      refine ⟨?_, List.pairwise_cons.mpr h⟩
      intro b hb
      rcases List.mem_cons.mp hb with hb | hb
      · exact hb ▸ hc
      · exact le_trans (h.1 b hb) hc
    · rw [insertDesc, if_neg hc, List.pairwise_cons]
      refine ⟨?_, ih h.2⟩
      intro b hb
      rcases (mem_insertDesc u b vs).mp hb with hb | hb
      · exact hb ▸ le_of_not_le hc
      · exact h.1 b hb

theorem sortDesc_sorted (l : List UrlRec) :
    (sortDesc l).Pairwise (fun a b => b.createdAt ≤ a.createdAt) := by
  induction l with
  | nil => simp [sortDesc]
  | cons u us ih => exact insertDesc_sorted u (sortDesc us) ih

theorem sortDesc_perm (l : List UrlRec) : (sortDesc l).Perm l := by
  induction l with
  | nil => simp [sortDesc]
  | cons u us ih =>
    refine List.Perm.trans ?_ (List.Perm.cons u ih)
    have : ∀ (x : UrlRec) (m : List UrlRec), (insertDesc x m).Perm (x :: m) := by
      intro x m
      induction m with
      | nil => simp [insertDesc]
      | cons v vs ihm =>
        by_cases hc : v.createdAt ≤ x.createdAt
        · rw [insertDesc, if_pos hc]
        · rw [insertDesc, if_neg hc]
          exact List.Perm.trans (List.Perm.cons v ihm) (List.Perm.swap x v vs)
    exact this u (sortDesc us)

/-- `incrementUrlClicks` either leaves the store unchanged (no match) or
bumps exactly the `clicks` field of the first matching record, leaving every
other record and every other field untouched. -/
theorem incrementUrlClicks_characterization (store : Store) (code : String) :
    incrementUrlClicks store code = store ∨
      ∃ l u r, store = l ++ u :: r ∧ u.shortCode = code ∧
        (∀ v ∈ l, v.shortCode ≠ code) ∧
        incrementUrlClicks store code = l ++ { u with clicks := u.clicks + 1 } :: r := by
  induction store with
  | nil => exact Or.inl rfl
  | cons x xs ih =>
    by_cases hx : x.shortCode = code
    · refine Or.inr ⟨[], x, xs, by simp, hx, by simp, ?_⟩
      simp [incrementUrlClicks, beq_iff_eq.mpr hx]
    · have hb : (x.shortCode == code) = false := beq_eq_false_iff_ne.mpr hx
      rcases ih with h | ⟨l, u, r, hs, hu, hl, hres⟩
      · refine Or.inl ?_
        simp [incrementUrlClicks, hb, h]
      · refine Or.inr ⟨x :: l, u, r, by rw [hs]; simp, hu, ?_, ?_⟩
        · intro v hv
          rcases List.mem_cons.mp hv with hv | hv
          · exact hv ▸ hx
          · exact hl v hv
        · simp [incrementUrlClicks, hb, hres]

theorem createShortUrl_ok_inv (store : Store) (longUrl : String)
    (customAlias : Option String) (rnd : Nat → Nat) (now : Int) (newId : Nat)
    (rec : UrlRec) (s : Store)
    (h : createShortUrl store longUrl customAlias rnd now newId = (.ok rec, s)) :
    rec = { id := newId, shortCode := orElse customAlias (generateShortCode rnd),
            longUrl := longUrl,
            customAlias := if jsTruthy customAlias then customAlias else none,
            createdAt := now, clicks := 0 } ∧
    s = store ++ [rec] ∧ isShortCodeAvailable store rec.shortCode = true := by
  unfold createShortUrl at h
  by_cases hg : (jsTruthy customAlias
      && !(isShortCodeAvailable store (customAlias.getD ""))) = true
  · rw [if_pos hg] at h
    exact absurd (congrArg Prod.fst h) (by simp)
  · rw [if_neg hg] at h
    simp only [saveUrl] at h
    by_cases hav : isShortCodeAvailable store
        (orElse customAlias (generateShortCode rnd)) = true
    · rw [if_pos hav] at h
      simp only [Prod.mk.injEq, Except.ok.injEq] at h
      obtain ⟨h1, h2⟩ := h
      subst h1
      exact ⟨rfl, h2.symm, hav⟩
    · rw [if_neg hav] at h
      simp at h

theorem createShortUrl_cases (store : Store) (longUrl : String)
    (customAlias : Option String) (rnd : Nat → Nat) (now : Int) (newId : Nat) :
    (createShortUrl store longUrl customAlias rnd now newId).2 = store ∨
      ∃ rec, createShortUrl store longUrl customAlias rnd now newId
          = (.ok rec, store ++ [rec]) ∧
        isShortCodeAvailable store rec.shortCode = true := by
  unfold createShortUrl
  by_cases hg : (jsTruthy customAlias
      && !(isShortCodeAvailable store (customAlias.getD ""))) = true
  · rw [if_pos hg]
    exact Or.inl rfl
  · rw [if_neg hg]
    simp only [saveUrl]
    by_cases hav : isShortCodeAvailable store
        (orElse customAlias (generateShortCode rnd)) = true
    · rw [if_pos hav]
      exact Or.inr ⟨_, rfl, hav⟩
    · rw [if_neg hav]
      exact Or.inl rfl

theorem uniqueCodes_append (store : Store) (u : UrlRec)
    (hu : UniqueCodes store) (hav : isShortCodeAvailable store u.shortCode = true) :
    UniqueCodes (store ++ [u]) := by
  unfold UniqueCodes at *
  rw [List.map_append, List.pairwise_append]
  refine ⟨hu, by simp, ?_⟩
  intro a ha b hb
  simp only [List.map_cons, List.map_nil, List.mem_singleton] at hb
  subst hb
  rcases List.mem_map.mp ha with ⟨r, hr, rfl⟩
  exact (isShortCodeAvailable_iff store u.shortCode).mp hav r hr

theorem nanoid_length (len : Nat) (rnd : Nat → Nat) :
    (nanoid len rnd).length = len := by
  simp [nanoid, String.length]

theorem getD_mem_urlAlphabet (n : Nat) : urlAlphabet.getD n 'u' ∈ urlAlphabet := by
  by_cases h : n < urlAlphabet.length
  · rw [List.getD_eq_getElem urlAlphabet 'u' h]
    exact List.getElem_mem h
  · rw [List.getD_eq_default urlAlphabet 'u' (le_of_not_lt h)]
    decide

theorem nanoid_mem_alphabet (len : Nat) (rnd : Nat → Nat) :
    ∀ c ∈ (nanoid len rnd).toList, c ∈ urlAlphabet := by
  intro c hc
  simp only [nanoid, String.toList, List.mem_map, List.mem_range] at hc
  obtain ⟨i, _, rfl⟩ := hc
  exact getD_mem_urlAlphabet _

/-! ## Claims -/

/-- C1 (amended to nonempty aliases): for every store state and every
nonempty `customAlias` already present as a `shortCode` in the store,
`createShortUrl(longUrl, customAlias)` fails with the Conflict error and the
store is unchanged: no record is inserted and no existing record is mutated. -/
theorem C1_alias_conflict_no_write (store : Store) (longUrl a : String)
    (rnd : Nat → Nat) (now : Int) (newId : Nat)
    (ha : a ≠ "") (hp : ∃ r ∈ store, r.shortCode = a) :
    createShortUrl store longUrl (some a) rnd now newId
      = (.error .conflict, store) := by
  have hav : isShortCodeAvailable store a = false :=
    (isShortCodeAvailable_eq_false store a).mpr hp
  have ht : jsTruthy (some a) = true := by simp [jsTruthy, ha]
  simp [createShortUrl, ht, hav]

/-- C1 counterexample: the empty string can be "already present as a
shortCode in the store" while `createShortUrl` with `customAlias = ""` does
not fail with Conflict — the truthiness test `if (customAlias)` skips the
availability check, a random code is generated, and a record is inserted. -/
theorem C1_counterexample :
    ¬ (createShortUrl [⟨1, "", "https://a.com", none, 0, 0⟩] "https://b.com"
        (some "") (fun _ => 0) 5 2
      = (.error .conflict, [⟨1, "", "https://a.com", none, 0, 0⟩])) := by
  intro h
  have h1 := congrArg Prod.fst h
  rw [show (createShortUrl [⟨1, "", "https://a.com", none, 0, 0⟩] "https://b.com"
      (some "") (fun _ => 0) 5 2).1
      = Except.ok ⟨2, "uuuuuu", "https://b.com", none, 5, 0⟩ from rfl] at h1
  exact Except.noConfusion h1

/-- C1 witness: a concrete taken alias is rejected with Conflict and the
store is returned unchanged. -/
theorem C1_witness :
    createShortUrl [⟨1, "promo", "https://a.com", some "promo", 0, 0⟩]
        "https://b.com" (some "promo") (fun _ => 0) 5 2
      = (.error .conflict, [⟨1, "promo", "https://a.com", some "promo", 0, 0⟩]) :=
  C1_alias_conflict_no_write _ _ _ _ _ _ (by decide)
    ⟨⟨1, "promo", "https://a.com", some "promo", 0, 0⟩, by decide⟩

/-- C2: `shortCode` uniqueness is an invariant preserved by every
state-changing operation (`createShortUrl` whatever the alias, and
`incrementUrlClicks`; the lookups do not change the store), and on the
no-alias path every record `createShortUrl` successfully returns carries a
`shortCode` absent from the store prior to the call. -/
theorem C2_shortCode_unique (store : Store) (longUrl : String)
    (customAlias : Option String) (rnd : Nat → Nat) (now : Int) (newId : Nat)
    (code : String) :
    (UniqueCodes store →
      UniqueCodes (createShortUrl store longUrl customAlias rnd now newId).2) ∧
    (UniqueCodes store → UniqueCodes (incrementUrlClicks store code)) ∧
    (∀ rec s, createShortUrl store longUrl none rnd now newId = (.ok rec, s) →
      ∀ r ∈ store, r.shortCode ≠ rec.shortCode) := by
  refine ⟨?_, ?_, ?_⟩
  · intro hu
    rcases createShortUrl_cases store longUrl customAlias rnd now newId with
      h | ⟨rec, h, hav⟩
    · rw [h]
      exact hu
    · have h2 := congrArg Prod.snd h
      rw [h2]
      exact uniqueCodes_append store rec hu hav
  · intro hu
    unfold UniqueCodes at *
    rw [map_shortCode_increment]
    exact hu
  · intro rec s h r hr
    have hav := (createShortUrl_ok_inv store longUrl none rnd now newId rec s h).2.2
    exact (isShortCodeAvailable_iff store rec.shortCode).mp hav r hr

/-- C2 witness: on a concrete store, creating a random-code URL preserves
uniqueness, and the code of the record a concrete successful no-alias call
returns was absent beforehand. -/
theorem C2_witness :
    UniqueCodes ((createShortUrl [⟨1, "promo", "https://a.com", some "promo", 0, 0⟩]
        "https://b.com" none (fun _ => 0) 5 2).2) ∧
    ∀ r ∈ ([⟨1, "promo", "https://a.com", some "promo", 0, 0⟩] : Store),
      r.shortCode ≠ (⟨2, "uuuuuu", "https://b.com", none, 5, 0⟩ : UrlRec).shortCode :=
  ⟨(C2_shortCode_unique [⟨1, "promo", "https://a.com", some "promo", 0, 0⟩]
      "https://b.com" none (fun _ => 0) 5 2 "x").1 (by decide),
   (C2_shortCode_unique [⟨1, "promo", "https://a.com", some "promo", 0, 0⟩]
      "https://b.com" none (fun _ => 0) 5 2 "x").2.2
      ⟨2, "uuuuuu", "https://b.com", none, 5, 0⟩
      [⟨1, "promo", "https://a.com", some "promo", 0, 0⟩,
       ⟨2, "uuuuuu", "https://b.com", none, 5, 0⟩] rfl⟩

/-- C3: `getRecentUrls(k)` returns at most `k` records, ordered by
`createdAt` descending; `getRecentUrls(0)` is empty; and the limit defaults
to 10 when absent. -/
theorem C3_recent_urls (store : Store) (k : Nat) :
    (getRecentUrls store k).length ≤ k ∧
    (getRecentUrls store k).Pairwise (fun a b => b.createdAt ≤ a.createdAt) ∧
    getRecentUrls store 0 = [] ∧
    getRecentUrls store = getRecentUrls store 10 := by
  refine ⟨?_, ?_, ?_, rfl⟩
  · exact List.length_take_le k (sortDesc store)
  · exact List.Pairwise.sublist (List.take_sublist k (sortDesc store))
      (sortDesc_sorted store)
  · simp [getRecentUrls]

theorem clicksOf_iterate (store : Store) (code : String) (N : Nat) :
    clicksOf ((fun s => incrementUrlClicks s code)^[N] store) code
      = (clicksOf store code).map (· + N) := by
  induction N with
  | zero => cases h : clicksOf store code <;> simp [h]
  | succ n ih =>
    rw [Function.iterate_succ_apply', clicksOf_increment, ih]
    cases clicksOf store code <;> simp [Nat.add_assoc]

/-- C4: on a `shortCode` matching an existing record (the one `findOne`
returns), N sequential calls to `incrementUrlClicks` raise that record's
`clicks` by exactly N; on a `shortCode` with no matching record the store is
left unchanged (and the total function cannot fail). -/
theorem C4_click_increment (store : Store) (code : String) (N : Nat) :
    (∀ r, findOneByShortCode store code = some r →
      clicksOf ((fun s => incrementUrlClicks s code)^[N] store) code
        = some (r.clicks + N)) ∧
    ((∀ r ∈ store, r.shortCode ≠ code) → incrementUrlClicks store code = store) := by
  refine ⟨?_, incrementUrlClicks_of_no_match store code⟩
  intro r hr
  rw [clicksOf_iterate store code N]
  simp [clicksOf, getUrlByShortCode, hr]

/-- C4 witness: three increments on a concrete record take `clicks` from 4
to 7, and incrementing a missing code leaves a concrete store unchanged. -/
theorem C4_witness :
    clicksOf ((fun s => incrementUrlClicks s "abc123")^[3]
        [⟨2, "abc123", "https://b.com", none, 9, 4⟩]) "abc123" = some 7 ∧
    incrementUrlClicks [⟨2, "abc123", "https://b.com", none, 9, 4⟩] "zzz"
      = [⟨2, "abc123", "https://b.com", none, 9, 4⟩] :=
  ⟨(C4_click_increment [⟨2, "abc123", "https://b.com", none, 9, 4⟩] "abc123" 3).1
      ⟨2, "abc123", "https://b.com", none, 9, 4⟩ rfl,
   (C4_click_increment [⟨2, "abc123", "https://b.com", none, 9, 4⟩] "zzz" 0).2
      (by decide)⟩

/-- C5: on the no-alias path, the short code stored and returned by a
successful `createShortUrl` is the generated code: a string of fixed
length 6 all of whose characters are drawn from the URL-safe alphabet. -/
theorem C5_random_code_shape (store : Store) (longUrl : String) (rnd : Nat → Nat)
    (now : Int) (newId : Nat) (rec : UrlRec) (s : Store)
    (h : createShortUrl store longUrl none rnd now newId = (.ok rec, s)) :
    s = store ++ [rec] ∧ rec.shortCode = generateShortCode rnd ∧
    rec.shortCode.length = 6 ∧ ∀ c ∈ rec.shortCode.toList, c ∈ urlAlphabet := by
  obtain ⟨hrec, hs, _⟩ :=
    createShortUrl_ok_inv store longUrl none rnd now newId rec s h
  have hcode : rec.shortCode = generateShortCode rnd := by
    rw [hrec]
    rfl
  refine ⟨hs, hcode, ?_, ?_⟩
  · rw [hcode]
    exact nanoid_length 6 rnd
  · rw [hcode]
    exact nanoid_mem_alphabet 6 rnd

/-- C5 witness: a concrete no-alias creation stores and returns the
generated 6-character URL-safe code. -/
theorem C5_witness :
    ([⟨1, "uuuuuu", "https://a.com", none, 0, 0⟩] : Store)
        = [] ++ [⟨1, "uuuuuu", "https://a.com", none, 0, 0⟩] ∧
    (⟨1, "uuuuuu", "https://a.com", none, 0, 0⟩ : UrlRec).shortCode
        = generateShortCode (fun _ => 0) ∧
    (⟨1, "uuuuuu", "https://a.com", none, 0, 0⟩ : UrlRec).shortCode.length = 6 ∧
    ∀ c ∈ (⟨1, "uuuuuu", "https://a.com", none, 0, 0⟩ : UrlRec).shortCode.toList,
      c ∈ urlAlphabet :=
  C5_random_code_shape [] "https://a.com" (fun _ => 0) 0 1
    ⟨1, "uuuuuu", "https://a.com", none, 0, 0⟩
    [⟨1, "uuuuuu", "https://a.com", none, 0, 0⟩] rfl

/-- C6: every successful `createShortUrl` persists exactly one new record —
the store becomes the old store plus the returned record — and that record
has `clicks = 0`, `createdAt` the time of the call, the assigned identifier
and the requested `longUrl`. -/
theorem C6_create_persists_one (store : Store) (longUrl : String)
    (customAlias : Option String) (rnd : Nat → Nat) (now : Int) (newId : Nat)
    (rec : UrlRec) (s : Store)
    (h : createShortUrl store longUrl customAlias rnd now newId = (.ok rec, s)) :
    s = store ++ [rec] ∧ rec.clicks = 0 ∧ rec.createdAt = now ∧
    rec.id = newId ∧ rec.longUrl = longUrl := by
  obtain ⟨hrec, hs, _⟩ :=
    createShortUrl_ok_inv store longUrl customAlias rnd now newId rec s h
  exact ⟨hs, by rw [hrec], by rw [hrec], by rw [hrec], by rw [hrec]⟩

/-- C6 witness: a concrete successful creation appends exactly the returned
record, with `clicks = 0` and the call's timestamp and identifier. -/
theorem C6_witness :
    ([⟨3, "promo", "https://a.com", some "promo", 7, 0⟩] : Store)
        = [] ++ [⟨3, "promo", "https://a.com", some "promo", 7, 0⟩] ∧
    (⟨3, "promo", "https://a.com", some "promo", 7, 0⟩ : UrlRec).clicks = 0 ∧
    (⟨3, "promo", "https://a.com", some "promo", 7, 0⟩ : UrlRec).createdAt = 7 ∧
    (⟨3, "promo", "https://a.com", some "promo", 7, 0⟩ : UrlRec).id = 3 ∧
    (⟨3, "promo", "https://a.com", some "promo", 7, 0⟩ : UrlRec).longUrl
        = "https://a.com" :=
  C6_create_persists_one [] "https://a.com" (some "promo") (fun _ => 0) 7 3
    ⟨3, "promo", "https://a.com", some "promo", 7, 0⟩
    [⟨3, "promo", "https://a.com", some "promo", 7, 0⟩] rfl

/-- C7: `getUrlByShortCode` is an exact-match lookup: a `some` result is a
record of the store bearing exactly the queried code, and the result is
`none` (absent, not an error) precisely when no record has that code. -/
theorem C7_lookup_exact_or_absent (store : Store) (code : String) :
    (∀ rec, getUrlByShortCode store code = some rec →
      rec ∈ store ∧ rec.shortCode = code) ∧
    (getUrlByShortCode store code = none ↔ ∀ r ∈ store, r.shortCode ≠ code) :=
  ⟨fun rec h => findOne_some_spec store code rec h, findOne_eq_none_iff store code⟩

/-- C7 witness: a concrete hit returns a member record with the queried
code. -/
theorem C7_witness :
    (⟨2, "abc123", "https://b.com", none, 9, 4⟩ : UrlRec)
        ∈ ([⟨2, "abc123", "https://b.com", none, 9, 4⟩] : Store) ∧
    (⟨2, "abc123", "https://b.com", none, 9, 4⟩ : UrlRec).shortCode = "abc123" :=
  (C7_lookup_exact_or_absent [⟨2, "abc123", "https://b.com", none, 9, 4⟩]
      "abc123").1 ⟨2, "abc123", "https://b.com", none, 9, 4⟩ rfl

/-- C8: `getUrlByShortCode` is a pure read: the post-state equals the
pre-state, and a second call on that post-state with the same code returns
the same result as the first. -/
theorem C8_pure_read (store : Store) (code : String) :
    (getUrlByShortCodeRun store code).2 = store ∧
    (getUrlByShortCodeRun ((getUrlByShortCodeRun store code).2) code).1
      = (getUrlByShortCodeRun store code).1 :=
  ⟨rfl, rfl⟩

/-- C9: `createShortUrl` with `customAlias = ""` behaves exactly as a call
with no alias: the availability check is skipped, the generated 6-character
code becomes the `shortCode`, the stored `customAlias` field is null, and
the empty string is never used as a `shortCode`. -/
theorem C9_empty_alias_as_absent (store : Store) (longUrl : String)
    (rnd : Nat → Nat) (now : Int) (newId : Nat) :
    createShortUrl store longUrl (some "") rnd now newId
      = createShortUrl store longUrl none rnd now newId ∧
    ∀ rec s, createShortUrl store longUrl (some "") rnd now newId = (.ok rec, s) →
      rec.customAlias = none ∧ rec.shortCode = generateShortCode rnd ∧
      rec.shortCode ≠ "" := by
  refine ⟨rfl, ?_⟩
  intro rec s h
  obtain ⟨hrec, _, _⟩ :=
    createShortUrl_ok_inv store longUrl (some "") rnd now newId rec s h
  have hcode : rec.shortCode = generateShortCode rnd := by
    rw [hrec]
    rfl
  refine ⟨by rw [hrec]; rfl, hcode, ?_⟩
  rw [hcode]
  intro he
  have hl := nanoid_length 6 rnd
  rw [show generateShortCode rnd = nanoid 6 rnd from rfl] at he
  rw [he] at hl
  simp at hl

/-- C9 witness: a concrete empty-alias call coincides with the no-alias
call and yields a null alias and the nonempty generated code. -/
theorem C9_witness :
    createShortUrl [] "https://a.com" (some "") (fun _ => 0) 0 1
      = createShortUrl [] "https://a.com" none (fun _ => 0) 0 1 ∧
    ((⟨1, "uuuuuu", "https://a.com", none, 0, 0⟩ : UrlRec).customAlias = none ∧
     (⟨1, "uuuuuu", "https://a.com", none, 0, 0⟩ : UrlRec).shortCode
        = generateShortCode (fun _ => 0) ∧
     (⟨1, "uuuuuu", "https://a.com", none, 0, 0⟩ : UrlRec).shortCode ≠ "") :=
  ⟨(C9_empty_alias_as_absent [] "https://a.com" (fun _ => 0) 0 1).1,
   (C9_empty_alias_as_absent [] "https://a.com" (fun _ => 0) 0 1).2
     ⟨1, "uuuuuu", "https://a.com", none, 0, 0⟩
     [⟨1, "uuuuuu", "https://a.com", none, 0, 0⟩] rfl⟩

/-- C10: `incrementUrlClicks` modifies at most one record — the first one
matching the code — and changes only its `clicks` field; its other fields
and every other record of the store are unchanged. -/
theorem C10_increment_frame (store : Store) (code : String) :
    incrementUrlClicks store code = store ∨
      ∃ l u r, store = l ++ u :: r ∧ u.shortCode = code ∧
        (∀ v ∈ l, v.shortCode ≠ code) ∧
        incrementUrlClicks store code
          = l ++ { id := u.id, shortCode := u.shortCode, longUrl := u.longUrl,
                   customAlias := u.customAlias, createdAt := u.createdAt,
                   clicks := u.clicks + 1 } :: r :=
  incrementUrlClicks_characterization store code

end Giva
